import Mathlib

/-!
Verification of the stroke-synthesis core of `react-signature-canvas`
(`src/index.js`), shallowly embedded over ℝ.

JS floating-point numbers are modelled as real numbers; where the
possibility of a non-finite IEEE result (NaN / ±Infinity) matters, a
separate model over `Option ℝ` is used (`none` = non-finite).
-/

namespace SigCanvas

/-- A timestamped 2D sample. Modelled from the spec: `point.js` is imported by
`src/index.js` but is not under `src/`; the spec's §3 gives
`Sample = {x: float, y: float, time: timestamp}`. -/
structure Point where
  x : ℝ
  y : ℝ
  time : ℝ


instance : Inhabited Point := ⟨⟨0, 0, 0⟩⟩

/-- A cubic Bezier segment. Modelled from the spec: `bezier.js` is imported by
`src/index.js` but is not under `src/`; the constructor argument order
`new Bezier(points[1], c2, c3, points[2])` together with the field accesses
`curve.startPoint`, `curve.control1`, `curve.control2`, `curve.endPoint` in
`src/index.js` and the spec's §3 `Curve = {start, control1, control2, end}`
determine the record. -/
structure Bezier where
  startPoint : Point
  control1 : Point
  control2 : Point
  endPoint : Point


noncomputable section

/-- Modelled from the spec: `point.js` is not under `src/`. §3/§4.1: velocity is
`distance(a,b) / max(time(a)-time(b), 1)` (elapsed time floored at 1). -/
def Point.velocityFrom (p start : Point) : ℝ :=
  Real.sqrt ((p.x - start.x) ^ 2 + (p.y - start.y) ^ 2) / max (p.time - start.time) 1

/-- `_calculateCurveControlPoints(s1, s2, s3)` from `src/index.js` lines 261-284,
over ℝ. Returns `(c1, c2)`. (Lean's real division makes `l2 / (l1 + l2)` zero
when `l1 + l2 = 0`; see `calculateCurveControlPointsJS` for the IEEE behavior
of the same expression.) The `time` field of a constructed control point is
never read; it is set to 0 here. -/
def calculateCurveControlPoints (s1 s2 s3 : Point) : Point × Point :=
  let dx1 := s1.x - s2.x
  let dy1 := s1.y - s2.y
  let dx2 := s2.x - s3.x
  let dy2 := s2.y - s3.y
  let m1x := (s1.x + s2.x) / 2
  let m1y := (s1.y + s2.y) / 2
  let m2x := (s2.x + s3.x) / 2
  let m2y := (s2.y + s3.y) / 2
  let l1 := Real.sqrt (dx1 * dx1 + dy1 * dy1)
  let l2 := Real.sqrt (dx2 * dx2 + dy2 * dy2)
  let dxm := m1x - m2x
  let dym := m1y - m2y
  let k := l2 / (l1 + l2)
  let cmx := m2x + dxm * k
  let cmy := m2y + dym * k
  let tx := s2.x - cmx
  let ty := s2.y - cmy
  (⟨m1x + tx, m1y + ty, 0⟩, ⟨m2x + tx, m2y + ty, 0⟩)

/-! ### IEEE non-finiteness model

`Option ℝ` with `none` standing for a non-finite double (NaN or ±Infinity).
Arithmetic on finite doubles is real arithmetic; any operation with a
non-finite operand is non-finite (true for the operations used here, where no
operand combination brings an infinity back to a finite value), and division
by zero (`0/0 = NaN`, `x/0 = ±Infinity`) is non-finite. -/

def jadd (a b : Option ℝ) : Option ℝ := a.bind fun x => b.map fun y => x + y

def jsub (a b : Option ℝ) : Option ℝ := a.bind fun x => b.map fun y => x - y

def jmul (a b : Option ℝ) : Option ℝ := a.bind fun x => b.map fun y => x * y

def jdiv (a b : Option ℝ) : Option ℝ :=
  a.bind fun x => b.bind fun y => if y = 0 then none else some (x / y)

def jsqrt (a : Option ℝ) : Option ℝ :=
  a.bind fun x => if x < 0 then none else some (Real.sqrt x)

/-- `_calculateCurveControlPoints` re-read under the IEEE model: the same
expression tree as the source, with `none` propagating non-finite doubles.
The result is `some` of both control points exactly when every coordinate is
a finite number. -/
def calculateCurveControlPointsJS (s1 s2 s3 : Point) : Option (Point × Point) :=
  let dx1 := jsub (some s1.x) (some s2.x)
  let dy1 := jsub (some s1.y) (some s2.y)
  let dx2 := jsub (some s2.x) (some s3.x)
  let dy2 := jsub (some s2.y) (some s3.y)
  let m1x := jdiv (jadd (some s1.x) (some s2.x)) (some 2)
  let m1y := jdiv (jadd (some s1.y) (some s2.y)) (some 2)
  let m2x := jdiv (jadd (some s2.x) (some s3.x)) (some 2)
  let m2y := jdiv (jadd (some s2.y) (some s3.y)) (some 2)
  let l1 := jsqrt (jadd (jmul dx1 dx1) (jmul dy1 dy1))
  let l2 := jsqrt (jadd (jmul dx2 dx2) (jmul dy2 dy2))
  let dxm := jsub m1x m2x
  let dym := jsub m1y m2y
  let k := jdiv l2 (jadd l1 l2)
  let cmx := jadd m2x (jmul dxm k)
  let cmy := jadd m2y (jmul dym k)
  let tx := jsub (some s2.x) cmx
  let ty := jsub (some s2.y) cmy
  match jadd m1x tx, jadd m1y ty, jadd m2x tx, jadd m2y ty with
  | some c1x, some c1y, some c2x, some c2y => some (⟨c1x, c1y, 0⟩, ⟨c2x, c2y, 0⟩)
  | _, _, _, _ => none

/-! ### Curve buffer -/

/-- `_addPoint(point)` from `src/index.js` lines 236-259, as a function of the
sliding window: returns the new window and the emitted curve, if any.
The source pushes `point`, and when the window then holds more than 2 samples
it (a) prepends a copy of the first sample when the length is exactly 3,
(b) builds `new Bezier(points[1], c2, c3, points[2])` with `c2` from the solver
on `points[0..2]` and `c3` (the curve's `control2`) from the solver's `c1` on
`points[1..3]`, and (c) shifts off the first sample. -/
def addPoint (w : List Point) (p : Point) : List Point × Option Bezier :=
  let pts := w ++ [p]
  if pts.length > 2 then
    let pts := if pts.length = 3 then pts.headI :: pts else pts
    let c2 := (calculateCurveControlPoints (pts.getD 0 default) (pts.getD 1 default)
      (pts.getD 2 default)).2
    let c3 := (calculateCurveControlPoints (pts.getD 1 default) (pts.getD 2 default)
      (pts.getD 3 default)).1
    let curve : Bezier := ⟨pts.getD 1 default, c2, c3, pts.getD 2 default⟩
    (pts.drop 1, some curve)
  else
    (pts, none)

/-! ### Rasterizer -/

/-- One filled disc stamped on the surface: `_drawPoint(x, y, size)` issues
`ctx.arc(x, y, size, 0, 2π)`, i.e. a disc of radius `size` centered at
`(x, y)` (`src/index.js` lines 302-308). -/
structure Disc where
  x : ℝ
  y : ℝ
  r : ℝ


instance : Inhabited Disc := ⟨⟨0, 0, 0⟩⟩

/-- The cubic Bernstein blend used both by `_drawCurve` (inlined in the source)
and by the length estimator. -/
def bezierXY (c : Bezier) (t : ℝ) : ℝ × ℝ :=
  let tt := t * t
  let ttt := tt * t
  let u := 1 - t
  let uu := u * u
  let uuu := uu * u
  (uuu * c.startPoint.x + 3 * uu * t * c.control1.x + 3 * u * tt * c.control2.x
      + ttt * c.endPoint.x,
    uuu * c.startPoint.y + 3 * uu * t * c.control1.y + 3 * u * tt * c.control2.y
      + ttt * c.endPoint.y)

/-- Modelled from the spec: `bezier.js` is not under `src/`. §4.4: `length()` is
a chord-based sampling estimator of the cubic's path length — sample the curve
at 10 uniform parameter steps and sum the chord lengths. -/
def Bezier.length (c : Bezier) : ℝ :=
  (List.range 10).foldl
    (fun acc i =>
      let p1 := bezierXY c ((i : ℝ) / 10)
      let p2 := bezierXY c (((i : ℝ) + 1) / 10)
      acc + Real.sqrt ((p2.1 - p1.1) ^ 2 + (p2.2 - p1.2) ^ 2))
    0

/-- `_drawCurve(curve, startWidth, endWidth)` from `src/index.js` lines 310-341,
as the list of discs stamped: `drawSteps = Math.floor(curve.length())`, and for
`i ∈ [0, drawSteps)` a disc at the Bernstein point for `t = i / drawSteps` whose
`arc` radius is `width = startWidth + t³ · (endWidth − startWidth)`. -/
def drawCurve (c : Bezier) (startWidth endWidth : ℝ) : List Disc :=
  let widthDelta := endWidth - startWidth
  let drawSteps := (⌊Bezier.length c⌋).toNat
  (List.range drawSteps).map fun (i : ℕ) =>
    let t : ℝ := (i : ℝ) / (drawSteps : ℝ)
    let tt := t * t
    let ttt := tt * t
    let u := 1 - t
    let uu := u * u
    let uuu := uu * u
    let x := uuu * c.startPoint.x + 3 * uu * t * c.control1.x
      + 3 * u * tt * c.control2.x + ttt * c.endPoint.x
    let y := uuu * c.startPoint.y + 3 * uu * t * c.control1.y
      + 3 * u * tt * c.control2.y + ttt * c.endPoint.y
    let width := startWidth + ttt * widthDelta
    ⟨x, y, width⟩

/-! ### Configuration, width mapper, stroke controller -/

/-- The `dotSize` prop: a number or a function of `(minWidth, maxWidth)`. -/
inductive DotSize where
  | const (r : ℝ)
  | fn (f : ℝ → ℝ → ℝ)

/-- The configuration props consumed by the stroke core. -/
structure Config where
  velocityFilterWeight : ℝ
  minWidth : ℝ
  maxWidth : ℝ
  dotSize : DotSize

/-- The `defaultProps` of `src/index.js` lines 21-33 (the fields the core
reads). -/
def defaultConfig : Config :=
  { velocityFilterWeight := 0.7
    minWidth := 0.5
    maxWidth := 2.5
    dotSize := .fn fun minWidth maxWidth => (minWidth + maxWidth) / 2 }

/-- `_strokeWidth(velocity)` from `src/index.js` lines 343-345. -/
def strokeWidth (cfg : Config) (velocity : ℝ) : ℝ :=
  max (cfg.maxWidth / (velocity + 1)) cfg.minWidth

/-- The dot size used by `_strokeDraw` (`src/index.js` lines 208-218): a
function-valued `dotSize` is called with `(minWidth, maxWidth)`, a constant is
used as-is. -/
def resolveDotSize (cfg : Config) : ℝ :=
  match cfg.dotSize with
  | .const r => r
  | .fn f => f cfg.minWidth cfg.maxWidth

/-- An observable action of the stroke controller, in emission order. -/
inductive DrawEvent where
  | curve (c : Bezier) (startWidth endWidth : ℝ)
  | dot (d : Disc)
  | began
  | ended

/-- The mutable stroke state: the sliding window `this.points`, the filter
state `this._lastVelocity` / `this._lastWidth`, and the trace of draw /
notification events. -/
structure SigState where
  points : List Point
  lastVelocity : ℝ
  lastWidth : ℝ
  events : List DrawEvent

/-- `_reset()` from `src/index.js` lines 119-124: clears the window and resets
the filter state to `(0, (minWidth + maxWidth) / 2)`. -/
def reset (cfg : Config) (st : SigState) : SigState :=
  { points := []
    lastVelocity := 0
    lastWidth := (cfg.minWidth + cfg.maxWidth) / 2
    events := st.events }

/-- `_addCurve(curve)` from `src/index.js` lines 286-300: smooth the raw
endpoint velocity against `_lastVelocity`, map it to a width, draw the curve
with `(lastWidth, newWidth)`, and store the new filter state. -/
def addCurve (cfg : Config) (st : SigState) (c : Bezier) : SigState :=
  let velocityRaw := c.endPoint.velocityFrom c.startPoint
  let velocity := cfg.velocityFilterWeight * velocityRaw
    + (1 - cfg.velocityFilterWeight) * st.lastVelocity
  let newWidth := strokeWidth cfg velocity
  { st with
    events := st.events ++ [.curve c st.lastWidth newWidth]
    lastVelocity := velocity
    lastWidth := newWidth }

/-- `_strokeUpdate(ev)` from `src/index.js` lines 197-200 (then `_addPoint`):
append the sample to the window; if a curve is emitted, run `_addCurve`. -/
def strokeUpdate (cfg : Config) (st : SigState) (p : Point) : SigState :=
  match addPoint st.points p with
  | (w, none) => { st with points := w }
  | (w, some c) => { addCurve cfg st c with points := w }

/-- `_strokeBegin(ev)` from `src/index.js` lines 202-206: `_reset()`, a first
`_strokeUpdate`, then the `onBegin` notification. -/
def strokeBegin (cfg : Config) (st : SigState) (p : Point) : SigState :=
  let st := strokeUpdate cfg (reset cfg st) p
  { st with events := st.events ++ [.began] }

/-- `_strokeDraw(point)` from `src/index.js` lines 208-218: one filled disc at
the point with the resolved dot size as its radius. -/
def strokeDraw (cfg : Config) (st : SigState) (p : Point) : SigState :=
  { st with events := st.events ++ [.dot ⟨p.x, p.y, resolveDotSize cfg⟩] }

/-- `_strokeEnd(ev)` from `src/index.js` lines 220-229: if the window cannot
draw a curve (length ≤ 2) and holds at least one point, draw the fallback dot
at `points[0]`; then the `onEnd` notification. The event's sample is passed
only to `onEnd` — it is never added to the window. -/
def strokeEnd (cfg : Config) (st : SigState) (_ev : Point) : SigState :=
  let canDrawCurve := st.points.length > 2
  let st :=
    match st.points with
    | [] => st
    | point :: _ => if canDrawCurve then st else strokeDraw cfg st point
  { st with events := st.events ++ [.ended] }

/-- An empty initial state. -/
def initState : SigState := ⟨[], 0, 0, []⟩

/-- A whole stroke: `begin` with the first sample, then a `strokeUpdate` per
further sample. -/
def run (cfg : Config) (p : Point) (updates : List Point) : SigState :=
  updates.foldl (strokeUpdate cfg) (strokeBegin cfg initState p)

/-- No curve-draw event occurs in the trace. -/
def NoCurve (es : List DrawEvent) : Prop :=
  ∀ c sw ew, DrawEvent.curve c sw ew ∉ es

/-- A concrete test curve tracing the straight segment from `(0,0)` to `(10,0)`
affinely (`bezierXY` at `t` is `(10·t, 0)`), so the chord-sampled length is
exactly 10. -/
def lineCurve : Bezier :=
  ⟨⟨0, 0, 0⟩, ⟨10 / 3, 0, 0⟩, ⟨20 / 3, 0, 0⟩, ⟨10, 0, 0⟩⟩

end

/-! ## Theorems -/

/-- Claim C1: adding a sample to the sliding window: appending to a window of
2 duplicates the first sample in front; with the window then at length ≥ 4 the
emitted curve is `Bezier(w[1], solve(w[0],w[1],w[2]).c2, solve(w[1],w[2],w[3]).c1, w[2])`
and `w[0]` is dropped; a window still shorter than 3 emits nothing. -/
theorem claim_C1_addPoint_window (w : List Point) (p : Point) :
    ((w ++ [p]).length < 3 → addPoint w p = (w ++ [p], none)) ∧
    ((w ++ [p]).length = 3 →
      addPoint w p =
        (w ++ [p],
          some
            ⟨((w ++ [p]).headI :: (w ++ [p])).getD 1 default,
              (calculateCurveControlPoints (((w ++ [p]).headI :: (w ++ [p])).getD 0 default)
                (((w ++ [p]).headI :: (w ++ [p])).getD 1 default)
                (((w ++ [p]).headI :: (w ++ [p])).getD 2 default)).2,
              (calculateCurveControlPoints (((w ++ [p]).headI :: (w ++ [p])).getD 1 default)
                (((w ++ [p]).headI :: (w ++ [p])).getD 2 default)
                (((w ++ [p]).headI :: (w ++ [p])).getD 3 default)).1,
              ((w ++ [p]).headI :: (w ++ [p])).getD 2 default⟩)) ∧
    (4 ≤ (w ++ [p]).length →
      addPoint w p =
        ((w ++ [p]).drop 1,
          some
            ⟨(w ++ [p]).getD 1 default,
              (calculateCurveControlPoints ((w ++ [p]).getD 0 default)
                ((w ++ [p]).getD 1 default) ((w ++ [p]).getD 2 default)).2,
              (calculateCurveControlPoints ((w ++ [p]).getD 1 default)
                ((w ++ [p]).getD 2 default) ((w ++ [p]).getD 3 default)).1,
              (w ++ [p]).getD 2 default⟩)) := by
  refine ⟨fun h => ?_, fun h => ?_, fun h => ?_⟩
  · simp only [addPoint]
    rw [if_neg (by omega)]
  · simp only [addPoint]
    rw [if_pos (by omega), if_pos h]
    simp
  · simp only [addPoint]
    rw [if_pos (by omega), if_neg (by omega)]

/-- Witness for C1 at a concrete window of two samples: the third sample
triggers duplication of the first sample, one curve, and a window of length 3
(here all samples are the origin, so both control points evaluate to the
origin as well). -/
theorem claim_C1_witness :
    addPoint [(⟨0, 0, 0⟩ : Point), ⟨0, 0, 0⟩] ⟨0, 0, 0⟩ =
      ([⟨0, 0, 0⟩, ⟨0, 0, 0⟩, ⟨0, 0, 0⟩],
        some ⟨⟨0, 0, 0⟩, ⟨0, 0, 0⟩, ⟨0, 0, 0⟩, ⟨0, 0, 0⟩⟩) := by
  have h := (claim_C1_addPoint_window [⟨0, 0, 0⟩, ⟨0, 0, 0⟩] ⟨0, 0, 0⟩).2.1 (by simp)
  simpa [calculateCurveControlPoints, Real.sqrt_zero] using h

/-- Claim C2 (code bug): the control-point solver has no guard on
`k = l2 / (l1 + l2)`.  For three coincident samples, IEEE evaluation of the
source expression gives `k = 0/0 = NaN` and the returned control points are
not finite numbers — the model returns `none`. -/
theorem claim_C2_solver_nan_bug :
    calculateCurveControlPointsJS ⟨0, 0, 0⟩ ⟨0, 0, 0⟩ ⟨0, 0, 0⟩ = none := by
  simp [calculateCurveControlPointsJS, jadd, jsub, jmul, jdiv, jsqrt]

/-- Claim C5: the width mapper is exactly `max (maxWidth / (v + 1)) minWidth`;
for nonnegative width bounds with `minWidth ≤ maxWidth` it is monotonically
non-increasing on `v ≥ 0`, stays in `[minWidth, maxWidth]` there, and attains
`maxWidth` at `v = 0`. -/
theorem claim_C5_strokeWidth (cfg : Config) :
    (∀ v, strokeWidth cfg v = max (cfg.maxWidth / (v + 1)) cfg.minWidth) ∧
    (0 ≤ cfg.minWidth → cfg.minWidth ≤ cfg.maxWidth →
      (∀ v₁ v₂, 0 ≤ v₁ → v₁ ≤ v₂ → strokeWidth cfg v₂ ≤ strokeWidth cfg v₁) ∧
      (∀ v, 0 ≤ v →
        cfg.minWidth ≤ strokeWidth cfg v ∧ strokeWidth cfg v ≤ cfg.maxWidth) ∧
      strokeWidth cfg 0 = cfg.maxWidth) := by
  have hmaxdef : ∀ v, strokeWidth cfg v = max (cfg.maxWidth / (v + 1)) cfg.minWidth :=
    fun _ => rfl
  refine ⟨hmaxdef, fun hmin hle => ⟨fun v₁ v₂ hv₁ hv₁₂ => ?_, fun v hv => ⟨?_, ?_⟩, ?_⟩⟩
  · have hmax : (0 : ℝ) ≤ cfg.maxWidth := hmin.trans hle
    have hdiv : cfg.maxWidth / (v₂ + 1) ≤ cfg.maxWidth / (v₁ + 1) := by
      gcongr
    exact max_le_max hdiv le_rfl
  · exact le_max_right _ _
  · have hmax : (0 : ℝ) ≤ cfg.maxWidth := hmin.trans hle
    refine max_le ?_ hle
    exact div_le_self hmax (by linarith)
  · rw [hmaxdef]
    norm_num
    exact hle

/-- Witness for C5 at the default configuration: the width at velocity 2 is
below the width at velocity 1, widths at velocity 1 stay within
`[0.5, 2.5]`, and the width at velocity 0 is `2.5`. -/
theorem claim_C5_witness :
    strokeWidth defaultConfig 2 ≤ strokeWidth defaultConfig 1 ∧
      (0.5 : ℝ) ≤ strokeWidth defaultConfig 1 ∧
      strokeWidth defaultConfig 1 ≤ 2.5 ∧
      strokeWidth defaultConfig 0 = 2.5 := by
  have h := claim_C5_strokeWidth defaultConfig
  have h2 := h.2 (by norm_num [defaultConfig]) (by norm_num [defaultConfig])
  exact ⟨h2.1 1 2 (by norm_num) (by norm_num),
    (h2.2.1 1 (by norm_num)).1,
    (h2.2.1 1 (by norm_num)).2,
    h2.2.2⟩

/-! ### Characterization of `strokeEnd` -/

theorem strokeEnd_eq_of_empty (cfg : Config) (st : SigState) (ev : Point)
    (h : st.points = []) :
    strokeEnd cfg st ev = { st with events := st.events ++ [.ended] } := by
  simp [strokeEnd, h]

theorem strokeEnd_eq_of_small (cfg : Config) (st : SigState) (ev : Point) (q : Point)
    (rest : List Point) (h : st.points = q :: rest) (hlen : st.points.length ≤ 2) :
    strokeEnd cfg st ev =
      { st with events := st.events ++ [.dot ⟨q.x, q.y, resolveDotSize cfg⟩, .ended] } := by
  have hlen' : ¬2 < rest.length + 1 := by
    rw [h] at hlen
    simp at hlen
    omega
  simp [strokeEnd, h, hlen', strokeDraw]

theorem strokeEnd_eq_of_big (cfg : Config) (st : SigState) (ev : Point)
    (h : 2 < st.points.length) :
    strokeEnd cfg st ev = { st with events := st.events ++ [.ended] } := by
  match hpts : st.points with
  | [] => rw [hpts] at h; simp at h
  | q :: rest =>
    have h' : 2 < rest.length + 1 := by rw [hpts] at h; simpa using h
    simp [strokeEnd, hpts, h']

/-- Claim C3 (amended): the `Active --end--> Idle` transition performs no final
update: the end sample is never appended to the window, the window and filter
state are unchanged, no curve can be emitted, and the transition only performs
the degenerate-dot check on the existing window followed by the stroke-ended
notification. -/
theorem claim_C3_end_no_update (cfg : Config) (st : SigState) (ev : Point) :
    (strokeEnd cfg st ev).points = st.points ∧
    (strokeEnd cfg st ev).lastVelocity = st.lastVelocity ∧
    (strokeEnd cfg st ev).lastWidth = st.lastWidth ∧
    (st.points = [] → (strokeEnd cfg st ev).events = st.events ++ [.ended]) ∧
    (∀ q rest, st.points = q :: rest → st.points.length ≤ 2 →
      (strokeEnd cfg st ev).events =
        st.events ++ [.dot ⟨q.x, q.y, resolveDotSize cfg⟩, .ended]) ∧
    (2 < st.points.length → (strokeEnd cfg st ev).events = st.events ++ [.ended]) := by
  have hkey : ∃ es, strokeEnd cfg st ev = { st with events := es } := by
    rcases hp : st.points with _ | ⟨q, rest⟩
    · refine ⟨st.events ++ [.ended], ?_⟩
      rw [strokeEnd_eq_of_empty cfg st ev hp, hp]
    · by_cases hlen : st.points.length ≤ 2
      · refine ⟨st.events ++ [.dot ⟨q.x, q.y, resolveDotSize cfg⟩, .ended], ?_⟩
        rw [strokeEnd_eq_of_small cfg st ev q rest hp hlen, hp]
      · refine ⟨st.events ++ [.ended], ?_⟩
        rw [strokeEnd_eq_of_big cfg st ev (by omega), hp]
  obtain ⟨es, hes⟩ := hkey
  refine ⟨by rw [hes], by rw [hes], by rw [hes], fun h => ?_, fun q rest hq hlen => ?_,
    fun h => ?_⟩
  · rw [strokeEnd_eq_of_empty cfg st ev h]
  · rw [strokeEnd_eq_of_small cfg st ev q rest hq hlen]
  · rw [strokeEnd_eq_of_big cfg st ev h]

/-- Witness for the amended C3: ending over a one-sample window paints the
fallback dot (default dot size `1.5`) and fires the end notification, leaving
the window untouched. -/
theorem claim_C3_witness :
    (strokeEnd defaultConfig ⟨[⟨0, 0, 0⟩], 0, 0, []⟩ ⟨5, 5, 5⟩).points = [⟨0, 0, 0⟩] ∧
      (strokeEnd defaultConfig ⟨[⟨0, 0, 0⟩], 0, 0, []⟩ ⟨5, 5, 5⟩).events =
        [.dot ⟨0, 0, 1.5⟩, .ended] := by
  have h := claim_C3_end_no_update defaultConfig ⟨[⟨0, 0, 0⟩], 0, 0, []⟩ ⟨5, 5, 5⟩
  refine ⟨h.1, ?_⟩
  rw [h.2.2.2.2.1 ⟨0, 0, 0⟩ [] rfl (by simp)]
  norm_num [resolveDotSize, defaultConfig]

/-- Counterexample to C3 as stated: ending a stroke whose window holds the two
samples `(0,0)` and `(1,0)` with end sample `(2,0)` does not append the end
sample to the window (it is not even a member of the resulting window), and no
curve is emitted — although a final update with the end sample would have
brought the window to 3 samples and emitted a curve. -/
theorem claim_C3_counterexample :
    (⟨2, 0, 2⟩ : Point) ∉
        (strokeEnd defaultConfig ⟨[⟨0, 0, 0⟩, ⟨1, 0, 1⟩], 0, 0, []⟩ ⟨2, 0, 2⟩).points ∧
      NoCurve (strokeEnd defaultConfig ⟨[⟨0, 0, 0⟩, ⟨1, 0, 1⟩], 0, 0, []⟩ ⟨2, 0, 2⟩).events := by
  constructor
  · norm_num [strokeEnd, strokeDraw, Point.mk.injEq]
  · intro c sw ew
    simp [strokeEnd, strokeDraw, NoCurve]

/-- Claim C10: for a degenerate two-sample stroke, the fallback dot is painted
at the coordinates of the first recorded sample and its `arc` radius is the
resolved `dotSize` value itself — in particular a constant `dotSize r` is used
as the radius unchanged, not halved. -/
theorem claim_C10_dot (cfg : Config) (st : SigState) (ev : Point) (a b : Point)
    (h : st.points = [a, b]) :
    (strokeEnd cfg st ev).events =
        st.events ++ [.dot ⟨a.x, a.y, resolveDotSize cfg⟩, .ended] ∧
      ∀ r, cfg.dotSize = DotSize.const r →
        (strokeEnd cfg st ev).events = st.events ++ [.dot ⟨a.x, a.y, r⟩, .ended] := by
  have hsmall := strokeEnd_eq_of_small cfg st ev a [b] h (by rw [h]; simp)
  constructor
  · rw [hsmall]
  · intro r hr
    rw [hsmall]
    simp [resolveDotSize, hr]

/-- Witness for C10: with a constant `dotSize = 3` and window `[(1,2), (4,6)]`,
the end transition paints exactly the dot `(1, 2, 3)` — radius 3, not 1.5. -/
theorem claim_C10_witness :
    (strokeEnd ⟨0.7, 0.5, 2.5, .const 3⟩ ⟨[⟨1, 2, 0⟩, ⟨4, 6, 1⟩], 0, 0, []⟩
        ⟨9, 9, 9⟩).events = [.dot ⟨1, 2, 3⟩, .ended] := by
  have h := claim_C10_dot ⟨0.7, 0.5, 2.5, .const 3⟩ ⟨[⟨1, 2, 0⟩, ⟨4, 6, 1⟩], 0, 0, []⟩
    ⟨9, 9, 9⟩ ⟨1, 2, 0⟩ ⟨4, 6, 1⟩ rfl
  simpa using h.2 3 rfl

/-! ### Window invariants -/

theorem addPoint_of_small (w : List Point) (p : Point) (h : w.length + 1 ≤ 2) :
    addPoint w p = (w ++ [p], none) := by
  simp only [addPoint]
  rw [if_neg (by simp only [List.length_append, List.length_singleton]; omega)]

theorem addPoint_isSome_of_large (w : List Point) (p : Point) (h : 3 ≤ w.length + 1) :
    ∃ c, (addPoint w p).2 = some c := by
  simp only [addPoint]
  rw [if_pos (by simp only [List.length_append, List.length_singleton]; omega)]
  exact ⟨_, rfl⟩

theorem addPoint_fst_length (w : List Point) (p : Point) :
    ((addPoint w p).1).length =
      if w.length + 1 > 2 then (if w.length + 1 = 3 then 3 else w.length)
      else w.length + 1 := by
  simp only [addPoint, List.length_append, List.length_singleton]
  split_ifs with h1 h2 <;> simp
  all_goals omega

theorem strokeUpdate_points_eq (cfg : Config) (st : SigState) (p : Point) :
    (strokeUpdate cfg st p).points = (addPoint st.points p).1 := by
  rcases h : addPoint st.points p with ⟨w, oc⟩
  cases oc <;> simp [strokeUpdate, h, addCurve]

theorem strokeUpdate_events_of_none (cfg : Config) (st : SigState) (p : Point)
    (h : (addPoint st.points p).2 = none) :
    (strokeUpdate cfg st p).events = st.events := by
  rcases hap : addPoint st.points p with ⟨w, oc⟩
  rw [hap] at h
  cases oc with
  | none => simp [strokeUpdate, hap]
  | some c => simp at h

/-- The invariant maintained across one stroke: the window holds between 1 and
3 samples after every completed operation, and while it has not yet reached 3
samples no curve has been drawn. -/
def GoodState (st : SigState) : Prop :=
  1 ≤ st.points.length ∧ st.points.length ≤ 3 ∧
    (st.points.length ≤ 2 → NoCurve st.events)

theorem goodState_update (cfg : Config) (st : SigState) (p : Point)
    (hst : GoodState st) : GoodState (strokeUpdate cfg st p) := by
  obtain ⟨h1, h2, h3⟩ := hst
  have hlen := addPoint_fst_length st.points p
  have hpts := strokeUpdate_points_eq cfg st p
  by_cases hsmall : st.points.length + 1 ≤ 2
  · have hnone : (addPoint st.points p).2 = none := by
      rw [addPoint_of_small st.points p hsmall]
    have hev := strokeUpdate_events_of_none cfg st p hnone
    refine ⟨?_, ?_, fun _ => ?_⟩
    · rw [hpts, hlen]; split_ifs <;> omega
    · rw [hpts, hlen]; split_ifs <;> omega
    · rw [hev]; exact h3 (by omega)
  · refine ⟨?_, ?_, fun hc => ?_⟩
    · rw [hpts, hlen]; split_ifs <;> omega
    · rw [hpts, hlen]; split_ifs <;> omega
    · exfalso
      rw [hpts, hlen] at hc
      revert hc
      split_ifs <;> omega

theorem strokeBegin_points_eq (cfg : Config) (st : SigState) (p : Point) :
    (strokeBegin cfg st p).points = [p] := by
  simp [strokeBegin, strokeUpdate, addPoint, reset]

theorem strokeBegin_initState (cfg : Config) (p : Point) :
    strokeBegin cfg initState p =
      ⟨[p], 0, (cfg.minWidth + cfg.maxWidth) / 2, [.began]⟩ := by
  simp [strokeBegin, strokeUpdate, addPoint, reset, initState]

theorem goodState_foldl (cfg : Config) (us : List Point) (st : SigState)
    (h : GoodState st) : GoodState (us.foldl (strokeUpdate cfg) st) := by
  induction us generalizing st with
  | nil => exact h
  | cons u us ih => exact ih _ (goodState_update cfg st u h)

theorem goodState_run (cfg : Config) (p : Point) (us : List Point) :
    GoodState (run cfg p us) := by
  refine goodState_foldl cfg us _ ?_
  rw [strokeBegin_initState]
  refine ⟨by simp, by simp, fun _ => ?_⟩
  intro c sw ew
  simp

/-- Claim C8: over any `begin` followed by any sequence of `update` calls the
sliding window never holds more than 4 samples once an operation completes
(in fact never more than 3), and `begin` clears the window before appending
its own sample. -/
theorem claim_C8_window_bound (cfg : Config) (p : Point) (updates : List Point) :
    (run cfg p updates).points.length ≤ 4 ∧
      ∀ st, (strokeBegin cfg st p).points = [p] := by
  refine ⟨?_, fun st => strokeBegin_points_eq cfg st p⟩
  have h := (goodState_run cfg p updates).2.1
  omega

/-- Claim C9: a stroke whose window holds fewer than 3 samples at `end` never
emitted a curve; the window is nonempty (the `begin` sample is recorded), and
`end` paints exactly one fallback dot at the first window sample with the
resolved `dotSize` — for a function-valued `dotSize`, the function applied to
`(minWidth, maxWidth)` — independently of any velocity. -/
theorem claim_C9_short_stroke (cfg : Config) (p : Point) (updates : List Point)
    (ev : Point) (h : (run cfg p updates).points.length < 3) :
    NoCurve (run cfg p updates).events ∧
      (run cfg p updates).points ≠ [] ∧
      (strokeEnd cfg (run cfg p updates) ev).events =
        (run cfg p updates).events ++
          [.dot ⟨(run cfg p updates).points.headI.x,
            (run cfg p updates).points.headI.y, resolveDotSize cfg⟩, .ended] ∧
      NoCurve (strokeEnd cfg (run cfg p updates) ev).events ∧
      ∀ f, cfg.dotSize = DotSize.fn f →
        resolveDotSize cfg = f cfg.minWidth cfg.maxWidth := by
  obtain ⟨h1, h2, h3⟩ := goodState_run cfg p updates
  have hnc : NoCurve (run cfg p updates).events := h3 (by omega)
  rcases hp : (run cfg p updates).points with _ | ⟨q, rest⟩
  · rw [hp] at h1; simp at h1
  · have hend := strokeEnd_eq_of_small cfg (run cfg p updates) ev q rest hp (by omega)
    refine ⟨hnc, by simp, ?_, ?_, fun f hf => by simp [resolveDotSize, hf]⟩
    · rw [hend]
      simp
    · rw [hend]
      intro c sw ew
      simp only [List.mem_append]
      rintro (hmem | hmem)
      · exact hnc c sw ew hmem
      · simp at hmem

/-- Witness for C9: a stroke of a single `begin` sample at the origin under the
default configuration never draws a curve, and `end` paints the single dot of
radius `(0.5 + 2.5)/2 = 1.5` at the origin. -/
theorem claim_C9_witness :
    (run defaultConfig ⟨0, 0, 0⟩ []).points.length < 3 ∧
      (strokeEnd defaultConfig (run defaultConfig ⟨0, 0, 0⟩ []) ⟨1, 1, 1⟩).events =
        [.began, .dot ⟨0, 0, 1.5⟩, .ended] := by
  have hlen : (run defaultConfig ⟨0, 0, 0⟩ []).points.length < 3 := by
    simp [run, strokeBegin, strokeUpdate, addPoint, reset, initState]
  have h := (claim_C9_short_stroke defaultConfig ⟨0, 0, 0⟩ [] ⟨1, 1, 1⟩ hlen).2.2.1
  refine ⟨hlen, ?_⟩
  rw [h]
  simp [run, strokeBegin, strokeUpdate, addPoint, reset, initState, resolveDotSize,
    defaultConfig]
  norm_num

/-- Claim C7: the filter state is reset to `(0, (minWidth + maxWidth)/2)` at
every stroke begin; whenever an update emits a curve, the smoothed velocity is
`weight · rawVelocity + (1 − weight) · lastVelocity`, the curve is drawn with
start width `lastWidth` and end width `strokeWidth(velocity)`, and the filter
state becomes that `(velocity, newWidth)` pair — keeping the width continuous
across consecutive curves of one stroke. -/
theorem claim_C7_filter (cfg : Config) :
    (∀ st p, (strokeBegin cfg st p).lastVelocity = 0 ∧
      (strokeBegin cfg st p).lastWidth = (cfg.minWidth + cfg.maxWidth) / 2) ∧
    ∀ st p w c, addPoint st.points p = (w, some c) →
      strokeUpdate cfg st p =
        { points := w
          lastVelocity :=
            cfg.velocityFilterWeight * Point.velocityFrom c.endPoint c.startPoint
              + (1 - cfg.velocityFilterWeight) * st.lastVelocity
          lastWidth :=
            strokeWidth cfg
              (cfg.velocityFilterWeight * Point.velocityFrom c.endPoint c.startPoint
                + (1 - cfg.velocityFilterWeight) * st.lastVelocity)
          events :=
            st.events ++
              [.curve c st.lastWidth
                (strokeWidth cfg
                  (cfg.velocityFilterWeight * Point.velocityFrom c.endPoint c.startPoint
                    + (1 - cfg.velocityFilterWeight) * st.lastVelocity))] } := by
  constructor
  · intro st p
    constructor <;> simp [strokeBegin, strokeUpdate, addPoint, reset]
  · intro st p w c h
    simp [strokeUpdate, h, addCurve]

/-- Witness for C7: updating a two-sample window at the origin (filter state
`(0, 1.5)`) emits the all-origin curve, drawn with start width `1.5` and end
width `strokeWidth(0) = 2.5`, and the filter state becomes `(0, 2.5)`. -/
theorem claim_C7_witness :
    strokeUpdate defaultConfig ⟨[⟨0, 0, 0⟩, ⟨0, 0, 0⟩], 0, 1.5, []⟩ ⟨0, 0, 0⟩ =
      ⟨[⟨0, 0, 0⟩, ⟨0, 0, 0⟩, ⟨0, 0, 0⟩], 0, 2.5,
        [.curve ⟨⟨0, 0, 0⟩, ⟨0, 0, 0⟩, ⟨0, 0, 0⟩, ⟨0, 0, 0⟩⟩ 1.5 2.5]⟩ := by
  have hap : addPoint [(⟨0, 0, 0⟩ : Point), ⟨0, 0, 0⟩] ⟨0, 0, 0⟩ =
      ([⟨0, 0, 0⟩, ⟨0, 0, 0⟩, ⟨0, 0, 0⟩],
        some ⟨⟨0, 0, 0⟩, ⟨0, 0, 0⟩, ⟨0, 0, 0⟩, ⟨0, 0, 0⟩⟩) := by
    simp [addPoint, calculateCurveControlPoints, Real.sqrt_zero]
  have h := (claim_C7_filter defaultConfig).2 ⟨[⟨0, 0, 0⟩, ⟨0, 0, 0⟩], 0, 1.5, []⟩
    ⟨0, 0, 0⟩ _ _ hap
  rw [h]
  norm_num [Point.velocityFrom, strokeWidth, defaultConfig, Real.sqrt_zero]

/-! ### Rasterizer sampling -/

theorem drawCurve_length_eq (c : Bezier) (sw ew : ℝ) :
    (drawCurve c sw ew).length = (⌊Bezier.length c⌋).toNat := by
  simp [drawCurve]

theorem drawCurve_getD_eq (c : Bezier) (sw ew : ℝ) (i : ℕ)
    (hi : i < (⌊Bezier.length c⌋).toNat) :
    (drawCurve c sw ew).getD i default =
      ⟨(bezierXY c ((i : ℝ) / ((⌊Bezier.length c⌋).toNat : ℝ))).1,
        (bezierXY c ((i : ℝ) / ((⌊Bezier.length c⌋).toNat : ℝ))).2,
        sw + ((i : ℝ) / ((⌊Bezier.length c⌋).toNat : ℝ)) ^ 3 * (ew - sw)⟩ := by
  simp only [drawCurve]
  rw [List.getD_eq_getElem?_getD, List.getElem?_map, List.getElem?_range hi]
  simp only [Option.map_some, Option.getD_some, bezierXY]
  refine Disc.mk.injEq .. ▸ ?_
  exact ⟨by ring, by ring, by ring⟩

theorem bezierXY_lineCurve (t : ℝ) : bezierXY lineCurve t = (10 * t, 0) := by
  simp only [bezierXY, lineCurve, Prod.mk.injEq]
  constructor <;> ring

theorem lineCurve_length : Bezier.length lineCurve = 10 := by
  simp only [Bezier.length, List.range_succ, List.range_zero, List.foldl_append,
    List.foldl_cons, List.foldl_nil, bezierXY_lineCurve]
  norm_num [Real.sqrt_one]

theorem lineCurve_steps : (⌊Bezier.length lineCurve⌋).toNat = 10 := by
  rw [lineCurve_length]
  norm_num
  rfl

/-- Claim C6: the rasterizer stamps `drawSteps = floor(curve.length())` discs,
the `i`-th at the Bernstein point for `t = i / drawSteps`, with width
`startWidth + t³ · (endWidth − startWidth)` — the width blends with the cube
of the Bezier parameter. -/
theorem claim_C6_sampling (c : Bezier) (sw ew : ℝ) :
    (drawCurve c sw ew).length = (⌊Bezier.length c⌋).toNat ∧
      ∀ i, i < (⌊Bezier.length c⌋).toNat →
        (drawCurve c sw ew).getD i default =
          ⟨(bezierXY c ((i : ℝ) / ((⌊Bezier.length c⌋).toNat : ℝ))).1,
            (bezierXY c ((i : ℝ) / ((⌊Bezier.length c⌋).toNat : ℝ))).2,
            sw + ((i : ℝ) / ((⌊Bezier.length c⌋).toNat : ℝ)) ^ 3 * (ew - sw)⟩ :=
  ⟨drawCurve_length_eq c sw ew, fun i hi => drawCurve_getD_eq c sw ew i hi⟩

/-- Witness for C6: the straight test curve of length 10 gets 10 discs; the
disc at `i = 5` (`t = 1/2`) sits at `(5, 0)` with width
`1 + (1/2)³ · (2 − 1) = 9/8`. -/
theorem claim_C6_witness :
    (drawCurve lineCurve 1 2).length = 10 ∧
      (drawCurve lineCurve 1 2).getD 5 default = ⟨5, 0, 9 / 8⟩ := by
  have h := claim_C6_sampling lineCurve 1 2
  constructor
  · rw [h.1, lineCurve_steps]
  · have h2 := h.2 5 (by rw [lineCurve_steps]; norm_num)
    rw [h2]
    rw [lineCurve_steps]
    norm_num [bezierXY_lineCurve]

/-- Claim C4 (amended): each sampled point of a curve is rendered as a filled
disc whose `arc` radius is the full interpolated width
`startWidth + t³ · (endWidth − startWidth)` — the width value is passed
directly as the radius, not halved. -/
theorem claim_C4_radius_full_width (c : Bezier) (sw ew : ℝ) (i : ℕ)
    (hi : i < (⌊Bezier.length c⌋).toNat) :
    ((drawCurve c sw ew).getD i default).r =
      sw + ((i : ℝ) / ((⌊Bezier.length c⌋).toNat : ℝ)) ^ 3 * (ew - sw) := by
  rw [drawCurve_getD_eq c sw ew i hi]

/-- Witness for C4 (amended): drawing the straight test curve with start width
1 gives a first disc of radius exactly 1. -/
theorem claim_C4_witness : ((drawCurve lineCurve 1 2).getD 0 default).r = 1 := by
  have h := claim_C4_radius_full_width lineCurve 1 2 0 (by rw [lineCurve_steps]; norm_num)
  rw [h, lineCurve_steps]
  norm_num

/-- Counterexample to C4 as stated: drawing the straight test curve with both
widths 1 makes the interpolated width at the first sample equal 1, but the
stamped disc has radius `1`, not `width / 2 = 1/2`. -/
theorem claim_C4_counterexample :
    ((drawCurve lineCurve 1 1).getD 0 default).r ≠
      (1 + ((0 : ℝ) / ((⌊Bezier.length lineCurve⌋).toNat : ℝ)) ^ 3 * (1 - 1)) / 2 := by
  have h := drawCurve_getD_eq lineCurve 1 1 0 (by rw [lineCurve_steps]; norm_num)
  rw [h, lineCurve_steps]
  norm_num

end SigCanvas
